import Mathlib

set_option linter.unusedSectionVars false

/-!
Verification of the BLS12-381 G1 curve configuration
(`src/test-curves/src/bls12_381/g1.rs`).

The file shallowly embeds the curve-level code: base-field elements are
naturals below the modulus `p`, field operations are modular arithmetic on
`Nat`, and points are an inductive with an explicit point-at-infinity
constructor.  The constants (`COFACTOR`, `COFACTOR_INV`, the generator
coordinates, the isogeny coefficient tables, the effective cofactor) are
copied from the source.  The generic curve arithmetic (`mul_affine`,
`normalize_batch`, the isogeny evaluator) is not part of the given source
tree, only configured and called by it, so those operations are modelled
from the specification where noted.
-/

namespace BLS

/-- Base field modulus of BLS12-381 (the prime `p` of `Fq`). -/
def p : Nat := 4002409555221667393417789825735904156556882819939007885332058136124031650490837864442687629129015664037894272559787

/-- Scalar field modulus of BLS12-381 (the prime `r` of `Fr`). -/
def r : Nat := 52435875175126190479447740508185965837690552500527637822603658699938581184513

/-- Field addition in `Fq`. -/
def addF (a b : Nat) : Nat := (a + b) % p

/-- Field subtraction in `Fq` (operands assumed reduced below `p`). -/
def subF (a b : Nat) : Nat := (a + (p - b % p)) % p

/-- Field multiplication in `Fq`. -/
def mulF (a b : Nat) : Nat := a * b % p

/-- Fuel-driven modular exponentiation by squaring; `fuel` bounds the bit
length of the exponent. -/
def powModAux (m : Nat) : Nat → Nat → Nat → Nat
  | 0, _, _ => 1 % m
  | fuel + 1, x, e =>
    if e = 0 then 1 % m
    else
      let h := powModAux m fuel (x * x % m) (e / 2)
      if e % 2 = 1 then x * h % m else h

/-- Field inversion in `Fq` by Fermat exponentiation (`0` maps to `0`).
The spec treats field inversion as supplied by the external field engine. -/
def invF (a : Nat) : Nat := powModAux p 400 (a % p) (p - 2)

/-- `COEFF_A = 0` (source line 30). -/
def COEFF_A : Nat := 0

/-- `COEFF_B = 4` (source line 34). -/
def COEFF_B : Nat := 4

/-- `mul_by_a` from the source: ignores its argument and returns zero. -/
def mul_by_a (_t : Nat) : Nat := 0

/-- An affine point: the point at infinity or a finite pair of reduced
base-field coordinates. -/
inductive Pt where
  | inf : Pt
  | fin (x y : Nat) : Pt
deriving DecidableEq

/-- The curve equation `y^2 = x^3 + 4` (with `A = 0`, `B = 4`); the point at
infinity is on the curve. -/
def onCurve : Pt → Prop
  | .inf => True
  | .fin x y => mulF y y = addF (mulF (mulF x x) x) COEFF_B

instance (P : Pt) : Decidable (onCurve P) := by
  cases P with
  | inf => exact isTrue trivial
  | fin x y =>
    exact (inferInstance : Decidable (mulF y y = addF (mulF (mulF x x) x) COEFF_B))

/-- Modelled from the spec: short-Weierstrass affine doubling (§4.2), with
the `A`-multiplication step routed through the source's `mul_by_a`
short-circuit.  The generic point arithmetic is not under `src/`. -/
def ecDouble : Pt → Pt
  | .inf => .inf
  | .fin x y =>
    if y = 0 then .inf
    else
      let l := mulF (addF (mulF 3 (mulF x x)) (mul_by_a x)) (invF (mulF 2 y))
      let x3 := subF (mulF l l) (mulF 2 x)
      .fin x3 (subF (mulF l (subF x x3)) y)

/-- Modelled from the spec: the doubling formula of §4.2 written with the
generic `A·x` term (`mulF COEFF_A x`) instead of the `mul_by_a`
short-circuit, for comparison. -/
def ecDoubleGeneric : Pt → Pt
  | .inf => .inf
  | .fin x y =>
    if y = 0 then .inf
    else
      let l := mulF (addF (mulF 3 (mulF x x)) (mulF COEFF_A x)) (invF (mulF 2 y))
      let x3 := subF (mulF l l) (mulF 2 x)
      .fin x3 (subF (mulF l (subF x x3)) y)

/-- Modelled from the spec: short-Weierstrass affine addition (§4.2); the
point at infinity is the additive identity, and adding a point to its
negative yields infinity.  The generic point arithmetic is not under
`src/`. -/
def ecAdd : Pt → Pt → Pt
  | .inf, q => q
  | q, .inf => q
  | .fin x1 y1, .fin x2 y2 =>
    if x1 = x2 then
      if (y1 + y2) % p = 0 then .inf else ecDouble (.fin x1 y1)
    else
      let l := mulF (subF y2 y1) (invF (subF x2 x1))
      let x3 := subF (subF (mulF l l) x1) x2
      .fin x3 (subF (mulF l (subF x1 x3)) y1)

/-- Modelled from the spec: binary double-and-add scalar multiplication,
processing the given bit list most-significant-first (§4.3). -/
def mulBits (bits : List Bool) (P : Pt) : Pt :=
  bits.foldl (fun acc b => let d := ecDouble acc; if b then ecAdd d P else d) .inf

/-- The `w` low bits of `n`, least-significant-first, by repeated division. -/
def limbBitsAux : Nat → Nat → List Bool
  | 0, _ => []
  | w + 1, n => decide (n % 2 = 1) :: limbBitsAux w (n / 2)

/-- All 64 bits of one little-endian 64-bit limb, most-significant-first. -/
def limbBits64 (n : Nat) : List Bool := (limbBitsAux 64 n).reverse

/-- Modelled from the spec: the most-significant-first bit sequence of a
scalar given as little-endian 64-bit limbs (fixed-width, §4.3). -/
def limbBits (limbs : List Nat) : List Bool :=
  (limbs.reverse.map limbBits64).flatten

/-- The fixed-width `w`-bit most-significant-first bit sequence of `n`,
read off with `Nat.testBit`. -/
def natBits (w n : Nat) : List Bool :=
  (List.range w).map (fun i => n.testBit (w - 1 - i))

/-- `h_eff`: the single-limb effective cofactor from `clear_cofactor`
(source line 51). -/
def h_eff : List Nat := [0xd201000000010001]

/-- `clear_cofactor` from the source: `mul_affine(p, h_eff)`, where
`mul_affine` (not under `src/`) is modelled from the spec as double-and-add
over the limbs' bits most-significant-first. -/
def clear_cofactor (P : Pt) : Pt := mulBits (limbBits h_eff) P

/-- `COFACTOR` from the source: little-endian 64-bit limbs (line 20). -/
def COFACTOR : List Nat := [0x8c00aaab0000aaab, 0x396c8c005555e156]

/-- Value of a little-endian sequence of 64-bit limbs. -/
def limbsToNat : List Nat → Nat
  | [] => 0
  | l :: ls => l % 2 ^ 64 + 2 ^ 64 * limbsToNat ls

/-- `COFACTOR_INV` from the source (line 25). -/
def COFACTOR_INV : Nat := 52435875175126190458656871551744051925719901746859129887267498875565241663483

/-- `G1_GENERATOR_X` from the source (line 131). -/
def G1_GENERATOR_X : Nat := 3685416753713387016781088315183077757961620795782546409894578378688607592378376318836054947676345821548104185464507

/-- `G1_GENERATOR_Y` from the source (line 136). -/
def G1_GENERATOR_Y : Nat := 1339506544944476473020471379941921221584933875938349620426543736416511423956333506472724655353366534992391756441569

/-- `GENERATOR` from the source (line 37). -/
def GENERATOR : Pt := .fin G1_GENERATOR_X G1_GENERATOR_Y

/-- `PHI_X_NOM` from the source (lines 60–73): coefficients of the isogeny
x-numerator, lowest degree first. -/
def PHI_X_NOM : List Nat := [
  2712959285290305970661081772124144179193819192423276218370281158706191519995889425075952244140278856085036081760695,
  3564859427549639835253027846704205725951033235539816243131874237388832081954622352624080767121604606753339903542203,
  2051387046688339481714726479723076305756384619135044672831882917686431912682625619320120082313093891743187631791280,
  3612713941521031012780325893181011392520079402153354595775735142359240110423346445050803899623018402874731133626465,
  2247053637822768981792833880270996398470828564809439728372634811976089874056583714987807553397615562273407692740057,
  3415427104483187489859740871640064348492611444552862448295571438270821994900526625562705192993481400731539293415811,
  2067521456483432583860405634125513059912765526223015704616050604591207046392807563217109432457129564962571408764292,
  3650721292069012982822225637849018828271936405382082649291891245623305084633066170122780668657208923883092359301262,
  1239271775787030039269460763652455868148971086016832054354147730155061349388626624328773377658494412538595239256855,
  3479374185711034293956731583912244564891370843071137483962415222733470401948838363051960066766720884717833231600798,
  2492756312273161536685660027440158956721981129429869601638362407515627529461742974364729223659746272460004902959995,
  1058488477413994682556770863004536636444795456512795473806825292198091015005841418695586811009326456605062948114985]

/-- `PHI_X_DEN` from the source (lines 75–87): coefficients of the isogeny
x-denominator, lowest degree first. -/
def PHI_X_DEN : List Nat := [
  1353092447850172218905095041059784486169131709710991428415161466575141675351394082965234118340787683181925558786844,
  2822220997908397120956501031591772354860004534930174057793539372552395729721474912921980407622851861692773516917759,
  1717937747208385987946072944131378949849282930538642983149296304709633281382731764122371874602115081850953846504985,
  501624051089734157816582944025690868317536915684467868346388760435016044027032505306995281054569109955275640941784,
  3025903087998593826923738290305187197829899948335370692927241015584233559365859980023579293766193297662657497834014,
  2224140216975189437834161136818943039444741035168992629437640302964164227138031844090123490881551522278632040105125,
  1146414465848284837484508420047674663876992808692209238763293935905506532411661921697047880549716175045414621825594,
  3179090966864399634396993677377903383656908036827452986467581478509513058347781039562481806409014718357094150199902,
  1549317016540628014674302140786462938410429359529923207442151939696344988707002602944342203885692366490121021806145,
  1442797143427491432630626390066422021593505165588630398337491100088557278058060064930663878153124164818522816175370,
  1]

/-- `PHI_Y_NOM` from the source (lines 89–106): coefficients of the isogeny
y-numerator, lowest degree first. -/
def PHI_Y_NOM : List Nat := [
  1393399195776646641963150658816615410692049723305861307490980409834842911816308830479576739332720113414154429643571,
  2968610969752762946134106091152102846225411740689724909058016729455736597929366401532929068084731548131227395540630,
  122933100683284845219599644396874530871261396084070222155796123161881094323788483360414289333111221370374027338230,
  303251954782077855462083823228569901064301365507057490567314302006681283228886645653148231378803311079384246777035,
  1353972356724735644398279028378555627591260676383150667237975415318226973994509601413730187583692624416197017403099,
  3443977503653895028417260979421240655844034880950251104724609885224259484262346958661845148165419691583810082940400,
  718493410301850496156792713845282235942975872282052335612908458061560958159410402177452633054233549648465863759602,
  1466864076415884313141727877156167508644960317046160398342634861648153052436926062434809922037623519108138661903145,
  1536886493137106337339531461344158973554574987550750910027365237255347020572858445054025958480906372033954157667719,
  2171468288973248519912068884667133903101171670397991979582205855298465414047741472281361964966463442016062407908400,
  3915937073730221072189646057898966011292434045388986394373682715266664498392389619761133407846638689998746172899634,
  3802409194827407598156407709510350851173404795262202653149767739163117554648574333789388883640862266596657730112910,
  1707589313757812493102695021134258021969283151093981498394095062397393499601961942449581422761005023512037430861560,
  349697005987545415860583335313370109325490073856352967581197273584891698473628451945217286148025358795756956811571,
  885704436476567581377743161796735879083481447641210566405057346859953524538988296201011389016649354976986251207243,
  3370924952219000111210625390420697640496067348723987858345031683392215988129398381698161406651860675722373763741188]

/-- `PHI_Y_DEN` from the source (lines 108–125): coefficients of the isogeny
y-denominator, lowest degree first. -/
def PHI_Y_DEN : List Nat := [
  3396434800020507717552209507749485772788165484415495716688989613875369612529138640646200921379825018840894888371137,
  3907278185868397906991868466757978732688957419873771881240086730384895060595583602347317992689443299391009456758845,
  854914566454823955479427412036002165304466268547334760894270240966182605542146252771872707010378658178126128834546,
  3496628876382137961119423566187258795236027183112131017519536056628828830323846696121917502443333849318934945158166,
  1828256966233331991927609917644344011503610008134915752990581590799656305331275863706710232159635159092657073225757,
  1362317127649143894542621413133849052553333099883364300946623208643344298804722863920546222860227051989127113848748,
  3443845896188810583748698342858554856823966611538932245284665132724280883115455093457486044009395063504744802318172,
  3484671274283470572728732863557945897902920439975203610275006103818288159899345245633896492713412187296754791689945,
  3755735109429418587065437067067640634211015783636675372165599470771975919172394156249639331555277748466603540045130,
  3459661102222301807083870307127272890283709299202626530836335779816726101522661683404130556379097384249447658110805,
  742483168411032072323733249644347333168432665415341249073150659015707795549260947228694495111018381111866512337576,
  1662231279858095762833829698537304807741442669992646287950513237989158777254081548205552083108208170765474149568658,
  1668238650112823419388205992952852912407572045257706138925379268508860023191233729074751042562151098884528280913356,
  369162719928976119195087327055926326601627748362769544198813069133429557026740823593067700396825489145575282378487,
  2164195715141237148945939585099633032390257748382945597506236650132835917087090097395995817229686247227784224263055,
  1]

/-- Horner evaluation of a polynomial given by its coefficient list, lowest
degree first, over `Fq`. -/
def horner (coeffs : List Nat) (x : Nat) : Nat :=
  coeffs.foldr (fun c acc => addF (mulF acc x) c) 0

/-- Modelled from the spec: the Weierstrass isogeny evaluator of §4.4
(`P.x = Nx(Q.x)/Dx(Q.x)`, `P.y = Q.y·Ny(Q.x)/Dy(Q.x)`, Horner, with the
point-at-infinity short-circuit); the generic evaluator is not under
`src/`, only its coefficient tables are. -/
def isogeny_map (nx dx ny dy : List Nat) : Pt → Pt
  | .inf => .inf
  | .fin x y =>
    .fin (mulF (horner nx x) (invF (horner dx x)))
      (mulF y (mulF (horner ny x) (invF (horner dy x))))

/-- The isogeny map instantiated at the source's coefficient tables. -/
def isogeny_map_bls (P : Pt) : Pt :=
  isogeny_map PHI_X_NOM PHI_X_DEN PHI_Y_NOM PHI_Y_DEN P

/-! ## Batch normalization

The spec (§2, §6) treats the field engine as an external collaborator, so
the batch normalizer is stated over an arbitrary decidable field, exactly
as the generic code is written over an arbitrary curve configuration. -/

/-- A projective point `(X, Y, Z)`: per the spec's data model it represents
the affine point `(X/Z, Y/Z)` when `Z ≠ 0` and the point at infinity when
`Z = 0`. -/
structure ProjPt (F : Type) where
  x : F
  y : F
  z : F
deriving DecidableEq

/-- An affine point over an arbitrary base field. -/
inductive AffPt (F : Type) where
  | inf : AffPt F
  | fin (x y : F) : AffPt F
deriving DecidableEq

variable {F : Type} [Field F] [DecidableEq F]

/-- Modelled from the spec: independent projective-to-affine conversion
(one inversion per point); `Z = 0` maps to the affine point at infinity. -/
def toAffinePt (P : ProjPt F) : AffPt F :=
  if P.z = 0 then .inf else .fin (P.x * P.z⁻¹) (P.y * P.z⁻¹)

/-- The running prefix products of a list, starting from `a`: element `i`
of the result is `a` times the product of the first `i` list elements. -/
def prefixes : List F → F → List F
  | [], _ => []
  | z :: zs, a => a :: prefixes zs (a * z)

/-- Modelled from the spec: Montgomery batch inversion (§4.5) — take the
running products of the `z` values, invert the single total product, then
walk backward (a right fold) recovering each individual inverse. -/
def montInvs (zs : List F) : List F :=
  ((zs.zip (prefixes zs 1)).foldr
    (fun zc acc => (acc.1 * zc.1, acc.1 * zc.2 :: acc.2))
    ((zs.foldl (· * ·) 1)⁻¹, [])).2

/-- Rebuild the affine output list: finite points consume the next
precomputed inverse, `Z = 0` points map directly to infinity without
touching the chain. -/
def assemble : List (ProjPt F) → List F → List (AffPt F)
  | [], _ => []
  | P :: ps, invs =>
    if P.z = 0 then .inf :: assemble ps invs
    else
      match invs with
      | [] => []
      | i :: is => .fin (P.x * i) (P.y * i) :: assemble ps is

/-- Modelled from the spec: `batch_normalize` (§4.5) — one shared inversion
over the nonzero `Z` values via Montgomery's trick, infinity entries
excluded from the chain. -/
def batch_normalize (l : List (ProjPt F)) : List (AffPt F) :=
  assemble l (montInvs (l.filterMap (fun P => if P.z = 0 then none else some P.z)))

/-! ## Helper lemmas -/

/-- The backward walk of Montgomery's trick: folding over the `z` values
zipped with their running products recovers every individual inverse,
provided the accumulator starts at the inverse of the total product. -/
lemma montFold_spec (zs : List F) : ∀ a t : F, (∀ z ∈ zs, z ≠ 0) →
    t * (a * zs.prod) = 1 →
    (zs.zip (prefixes zs a)).foldr
        (fun zc acc => (acc.1 * zc.1, acc.1 * zc.2 :: acc.2)) (t, [])
      = (t * zs.prod, zs.map (fun z => z⁻¹)) := by
  induction zs with
  | nil =>
    intro a t _ _
    simp [prefixes]
  | cons z zs ih =>
    intro a t hnz ht
    have hzs : ∀ w ∈ zs, w ≠ 0 := fun w hw => hnz w (List.mem_cons_of_mem z hw)
    rw [List.prod_cons] at ht
    have ht2 : t * (a * z * zs.prod) = 1 := by
      rw [mul_assoc a z zs.prod]; exact ht
    have hrec := ih (a * z) t hzs ht2
    have hinv : (z : F)⁻¹ = t * zs.prod * a := by
      refine inv_eq_of_mul_eq_one_left ?_
      linear_combination ht2
    simp [prefixes, List.zip_cons_cons, hrec, List.prod_cons, hinv]
    ring

/-- Montgomery batch inversion agrees with independent inversion on a list
of nonzero field elements. -/
lemma montInvs_spec (zs : List F) (hnz : ∀ z ∈ zs, z ≠ 0) :
    montInvs zs = zs.map (fun z => z⁻¹) := by
  have hp : zs.prod ≠ 0 := List.prod_ne_zero (fun h0 => hnz 0 h0 rfl)
  have hfold : zs.foldl (· * ·) 1 = zs.prod := List.prod_eq_foldl.symm
  have ht : (zs.prod)⁻¹ * (1 * zs.prod) = 1 := by
    rw [one_mul]; exact inv_mul_cancel₀ hp
  unfold montInvs
  rw [hfold, montFold_spec zs 1 (zs.prod)⁻¹ hnz ht]

/-- Every element collected from the nonzero-`Z` filter is nonzero. -/
lemma filtered_ne_zero (l : List (ProjPt F)) :
    ∀ z ∈ l.filterMap (fun P => if P.z = 0 then none else some P.z), z ≠ 0 := by
  intro z hz
  obtain ⟨P, _, hPz⟩ := List.mem_filterMap.1 hz
  by_cases h : P.z = 0
  · simp [h] at hPz
  · simp [h] at hPz
    exact hPz ▸ h

/-- Reassembly with the independently computed inverses of the nonzero `Z`
values produces exactly the pointwise conversion. -/
lemma assemble_map (l : List (ProjPt F)) :
    assemble l ((l.filterMap (fun P => if P.z = 0 then none else some P.z)).map
        (fun z => z⁻¹))
      = l.map toAffinePt := by
  induction l with
  | nil => simp [assemble]
  | cons P ps ih =>
    by_cases h : P.z = 0
    · simp [assemble, List.filterMap_cons, h, toAffinePt, ih]
    · simp [assemble, List.filterMap_cons, h, toAffinePt, ih]

/-- `batch_normalize` is extensionally the independent pointwise
conversion. -/
lemma batch_normalize_eq_map (l : List (ProjPt F)) :
    batch_normalize l = l.map toAffinePt := by
  unfold batch_normalize
  rw [montInvs_spec _ (filtered_ne_zero l), assemble_map]

/-! ## Claim theorems -/

/-- C1. For every affine point `P` satisfying the curve equation,
`clear_cofactor P` is the binary double-and-add scalar multiple of `P` by
the single 64-bit effective cofactor `0xd201000000010001` (not the full
cofactor), processing the scalar's bits most-significant-first. -/
theorem clear_cofactor_eq_double_and_add (P : Pt) (_h : onCurve P) :
    clear_cofactor P = mulBits (natBits 64 0xd201000000010001) P := by
  have hb : limbBits h_eff = natBits 64 0xd201000000010001 := by decide
  rw [clear_cofactor, hb]

/-- Witness for C1 at the fixed generator. -/
theorem clear_cofactor_eq_double_and_add_witness :
    onCurve GENERATOR ∧
      clear_cofactor GENERATOR = mulBits (natBits 64 0xd201000000010001) GENERATOR :=
  ⟨by decide, clear_cofactor_eq_double_and_add GENERATOR (by decide)⟩

/-- C3. The isogeny map sends the point at infinity of the isogenous curve
to the point at infinity of the target curve directly, whatever the four
coefficient tables are — no polynomial is evaluated and no division is
attempted. -/
theorem isogeny_map_inf :
    ∀ nx dx ny dy : List Nat, isogeny_map nx dx ny dy Pt.inf = Pt.inf :=
  fun _ _ _ _ => rfl

/-- C4. `batch_normalize` returns a sequence of the same length as its
input whose `i`-th element is the independent affine conversion of the
`i`-th input; infinity entries (at any position, including an empty or
all-infinity input) map to the affine point at infinity without disturbing
neighboring finite points. -/
theorem batch_normalize_correct {F : Type} [Field F] [DecidableEq F]
    (l : List (ProjPt F)) :
    (batch_normalize l).length = l.length ∧
      ∀ i : Nat, (batch_normalize l)[i]? = (l[i]?).map toAffinePt := by
  have key : batch_normalize l = l.map toAffinePt := batch_normalize_eq_map l
  refine ⟨by rw [key, List.length_map], fun i => ?_⟩
  rw [key, List.getElem?_map]

/-- C5. The fixed generator's coordinates satisfy the curve equation
`y^2 = x^3 + 4` over the base field. -/
theorem generator_on_curve : onCurve GENERATOR := by decide

set_option maxRecDepth 1000000 in
set_option maxHeartbeats 8000000 in
/-- C6. Scalar-multiplying the fixed generator by the scalar-field modulus
`r` yields the point at infinity. -/
theorem generator_mul_r_eq_inf : mulBits (natBits 255 r) GENERATOR = Pt.inf := by
  decide

/-- C7. `mul_by_a` returns the zero field element by a short-circuit, this
equals `COEFF_A · t` for the configured `COEFF_A = 0`, and consequently the
specialized doubling formula agrees with the generic short-Weierstrass
doubling formula. -/
theorem mul_by_a_spec :
    (∀ t : Nat, mul_by_a t = 0 ∧ mul_by_a t = mulF COEFF_A t) ∧
      ∀ P : Pt, ecDouble P = ecDoubleGeneric P := by
  constructor
  · intro t
    refine ⟨rfl, ?_⟩
    simp [mul_by_a, mulF, COEFF_A]
  · intro P
    cases P with
    | inf => rfl
    | fin x y => simp [ecDouble, ecDoubleGeneric, mul_by_a, mulF, COEFF_A, addF]

/-- C8. The `COFACTOR` limbs, read little-endian, encode the integer
76329603384216526031706109802092473003, and three times that integer is
the square of the effective cofactor `0xd201000000010001`. -/
theorem cofactor_value_and_heff :
    limbsToNat COFACTOR = 76329603384216526031706109802092473003 ∧
      3 * limbsToNat COFACTOR = limbsToNat h_eff * limbsToNat h_eff := by
  decide

/-- C9. `COFACTOR_INV` is the inverse of the cofactor modulo the scalar
field modulus `r`. -/
theorem cofactor_inv_correct : limbsToNat COFACTOR * COFACTOR_INV % r = 1 := by
  decide

/-- C10. Shapes of the isogeny coefficient tables: `PHI_X_NOM` has 12
entries, `PHI_X_DEN` has 11 with last (highest-degree) entry 1,
`PHI_Y_NOM` has 16, and `PHI_Y_DEN` has 16 with last entry 1. -/
theorem isogeny_table_shapes :
    PHI_X_NOM.length = 12 ∧
      PHI_X_DEN.length = 11 ∧ PHI_X_DEN.getLast? = some 1 ∧
      PHI_Y_NOM.length = 16 ∧ PHI_Y_DEN.length = 16 ∧
      PHI_Y_DEN.getLast? = some 1 := by
  decide

end BLS
